import Mathlib

/-!
Shallow embedding of `catboost/cuda/cuda_lib/mpi/mpi_manager.h` (class
`TMpiManager` and its inner class `TMpiRequest`), together with proofs about
the request lifecycle, the communication-tag allocator, the task dispatcher
size checks, the chunked asynchronous transfer loops and the POD send/receive
round trip.

Modelling conventions:
* `TMpiRequest::Flag` is an `int` holding -1 (never bound to a transfer,
  "empty"), 0 (pending) or a nonzero truthy value (complete; `MPI_Wait` sets
  it to 1 in the source, and we model the nonzero value written by `MPI_Test`
  as 1 as well).  `MPI_Request` and `MPI_Status` are opaque to the source, so
  the token is a bare `Nat` and the status record is modelled by the byte
  count that `MPI_Get_count` recovers from it.
* `CB_ENSURE`, `Y_VERIFY` and `Y_ASSERT` failures are fatal usage errors;
  an operation that can fire one returns `Option` and yields `none` there.
* Calls into the MPI library are modelled by oracle arguments (the outcome an
  `MPI_Test` would report, the status a completed transfer would carry) and,
  where a claim is about the number of transport calls, by a counter of how
  many such calls the operation performed.
-/

namespace CatboostMpi

/-- State of a `TMpiManager::TMpiRequest`: `flag` is the mutable `int Flag`
(-1 empty, 0 pending, 1 complete), `token` models the opaque `MPI_Request
Request` handle, and `status` models `MPI_Status Status` as the byte count
that `MPI_Get_count` extracts from it. -/
structure TMpiRequest where
  flag : Int
  token : Nat
  status : Nat
  deriving DecidableEq, Repr

/-- `TMpiRequest::IsComplete` : `CB_ENSURE(Flag != -1)` (fatal on an empty
request, modelled as `none`); `if (!Flag) MPI_Test(&Request, &Flag, &Status)`;
`return static_cast<bool>(Flag)`.  The oracle arguments `testDone` and
`testStatus` are the completion outcome and status the single `MPI_Test` call
would report; the returned `Nat` counts how many `MPI_Test` calls were made. -/
def isComplete (r : TMpiRequest) (testDone : Bool) (testStatus : Nat) :
    Option (TMpiRequest × Bool × Nat) :=
  if r.flag = -1 then none
  else if r.flag = 0 then
    some ({ r with
            flag := if testDone then 1 else 0,
            status := if testDone then testStatus else r.status },
          testDone, 1)
  else some (r, true, 0)

/-- `TMpiRequest::WaitComplete` : `CB_ENSURE(Flag != -1)`; if pending,
`MPI_Wait(&Request, &Status)` (which always completes the transfer) then
`Flag = true`; otherwise nothing.  The returned `Nat` counts `MPI_Wait`
calls. -/
def waitComplete (r : TMpiRequest) (waitStatus : Nat) :
    Option (TMpiRequest × Nat) :=
  if r.flag = -1 then none
  else if r.flag = 0 then some ({ r with flag := 1, status := waitStatus }, 1)
  else some (r, 0)

/-- `TMpiRequest::ReceivedBytes` : `CB_ENSURE(Flag != -1)`;
`MPI_Get_count(&Status, MPI_CHAR, &result)` recovers the byte count from the
status record. -/
def receivedBytes (r : TMpiRequest) : Option Nat :=
  if r.flag = -1 then none else some r.status

/-- `TMpiRequest::Abort` : `CB_ENSURE(Flag != -1)`; if pending,
`MPI_Cancel(&Request)` then `Flag = -1` (forcing the empty state); on a
request that is already complete the `if (!Flag)` branch is skipped and the
call returns normally without doing anything. -/
def abortRequest (r : TMpiRequest) : Option TMpiRequest :=
  if r.flag = -1 then none
  else if r.flag = 0 then some { r with flag := -1 }
  else some r

/-- `TMpiRequest::IsCreated` : `return Flag != -1;` (no ensure). -/
def isCreated (r : TMpiRequest) : Bool :=
  r.flag != -1

/-- `TMpiRequest::~TMpiRequest` : `if (Flag != -1) Y_VERIFY(Flag, "Error:
unfinished request")` — destroying a pending request is fatal (`none`);
destroying an empty or complete request succeeds. -/
def destructRequest (r : TMpiRequest) : Option Unit :=
  if r.flag ≠ -1 then
    if r.flag = 0 then none else some ()
  else some ()

/-- `TMpiRequest::Clear` : `Flag = -1;` (the token and status fields are left
as they are, but the request now reports itself as never created). -/
def clearRequest (r : TMpiRequest) : TMpiRequest :=
  { r with flag := -1 }

/-- `TMpiRequest` move constructor and move assignment (they share the same
body): when `this != &other` (`same = false`), `Flag`, `Request` and `Status`
are copied from the source to the destination and the source is `Clear()`ed;
when `this == &other` (`same = true`, a self move) nothing happens.  The pair
returned is (destination after, source after). -/
def moveAssign (dst src : TMpiRequest) (same : Bool) :
    TMpiRequest × TMpiRequest :=
  if same then (dst, src)
  else ({ flag := src.flag, token := src.token, status := src.status },
        clearRequest src)

/-- `TDeviceId` (host rank plus local device index) as used by `GetTaskTag`
and `SendTask`. -/
structure TDeviceId where
  hostId : Int
  deviceId : Int
  deriving DecidableEq, Repr

/-- `TMpiManager::GetTaskTag` : `Y_ASSERT(deviceId.DeviceId >= 0); return
deviceId.DeviceId + 1;`. -/
def getTaskTag (d : TDeviceId) : Int :=
  d.deviceId + 1

/-- `cycleLen` from `TMpiManager::NextCommunicationTag` : `(1 << 16) - 1`. -/
def cycleLen : Nat :=
  (1 <<< 16) - 1

/-- Two's-complement truncation of a wider unsigned counter value to a 32-bit
`int`, as performed by `static_cast<int>(AtomicIncrement(Counter))` (the
atomic counter is a 64-bit integer that starts at 0 and is incremented on
every call). -/
def toInt32 (c : Nat) : Int :=
  if c % 2 ^ 32 < 2 ^ 31 then ((c % 2 ^ 32 : Nat) : Int)
  else ((c % 2 ^ 32 : Nat) : Int) - 2 ^ 32

/-- Value of the 32-bit `int` whose two's-complement bit pattern is
`x mod 2^32`: the de facto result of any overflowing operation on a 32-bit
`int` (such an overflow is formally undefined behaviour in C++, but this is
what the produced code does on two's-complement hardware). -/
def wrap32 (x : Int) : Int :=
  if x % 2 ^ 32 < 2 ^ 31 then x % 2 ^ 32 else x % 2 ^ 32 - 2 ^ 32

/-- Unsigned 32-bit bit pattern of an `int` value. -/
def bits32 (x : Int) : Nat :=
  (x % 2 ^ 32).toNat

/-- 32-bit `<<`: a pattern shift, i.e. multiplication wrapped to 32 bits. -/
def shl32 (x : Int) (k : Nat) : Int :=
  wrap32 (x * 2 ^ k)

/-- 32-bit `|`: bitwise or of the two's-complement bit patterns. -/
def lor32 (x y : Int) : Int :=
  wrap32 ((bits32 x ||| bits32 y : Nat) : Int)

/-- `TMpiManager::NextCommunicationTag` as a function of the counter value
`c` produced by `AtomicIncrement(Counter)`:
`int tag = static_cast<int>(AtomicIncrement(Counter));`
`tag = tag < 0 ? -tag : tag;` (32-bit negation, which wraps back to
`INT_MIN` when `tag = INT_MIN`); `tag %= cycleLen;` (C++ `%` truncates
toward zero, so a negative `tag` gives a negative remainder);
`tag = (tag << 10) | 1023;` (32-bit shift and or); `return tag;`. -/
def nextCommunicationTag (c : Nat) : Int :=
  let tag : Int := toInt32 c
  let tag : Int := if tag < 0 then wrap32 (-tag) else tag
  let tag : Int := tag.tmod ((cycleLen : Nat) : Int)
  lor32 (shl32 tag 10) 1023

/-- `TMpiManager::BufferSize = 32 * 1024 * 1024` (32 MiB). -/
def BufferSize : Nat :=
  32 * 1024 * 1024

/-- Size checks of `TMpiManager::SendTask` : `Y_ASSERT(IsMaster());`
`const int size = static_cast<const int>(task.Size());`
`Y_ASSERT(size < (int)BufferSize); Y_ASSERT(size);` then the payload is
handed to `MPI_Bsend`/`MPI_Send`.  Returns the `size` passed to the send
call, or `none` when one of the assertions fires. -/
def sendTaskChecks (isMaster : Bool) (taskSize : Nat) : Option Int :=
  let size : Int := toInt32 taskSize
  if isMaster then
    if size < (BufferSize : Int) then
      if size ≠ 0 then some size else none
    else none
  else none

theorem cycleLen_eq : cycleLen = 65535 := by
  decide

/-- Helper: or-ing `1023` into a multiple of `1024` is plain addition
because the shifted value has zero low bits. -/
theorem lor_1023_eq (a : Nat) : (a * 1024) ||| 1023 = a * 1024 + 1023 := by
  rw [(by norm_num : (1024 : Nat) = 2 ^ 10), Nat.mul_comm]
  exact (Nat.mul_add_lt_is_or (show (1023 : Nat) < 2 ^ 10 by decide) a).symm

theorem toInt32_of_lt {c : Nat} (h : c < 2 ^ 31) : toInt32 c = (c : Int) := by
  unfold toInt32
  rw [Nat.mod_eq_of_lt (show c < 2 ^ 32 by omega), if_pos h]

theorem toInt32_natAbs_of_lt {c : Nat} (h : c < 2 ^ 31) :
    (toInt32 c).natAbs = c := by
  rw [toInt32_of_lt h]
  exact Int.natAbs_ofNat c

theorem toInt32_bounds (c : Nat) :
    -(2 ^ 31) ≤ toInt32 c ∧ toInt32 c < 2 ^ 31 := by
  unfold toInt32
  have h := Nat.mod_lt c (show 0 < 2 ^ 32 by decide)
  split <;> omega

theorem toInt32_ne_intMin (c : Nat) (hc : c % 2 ^ 32 ≠ 2 ^ 31) :
    toInt32 c ≠ -(2 ^ 31) := by
  unfold toInt32
  split <;> omega

theorem wrap32_of_nonneg_lt {x : Int} (h0 : 0 ≤ x) (h : x < 2 ^ 31) :
    wrap32 x = x := by
  unfold wrap32
  rw [Int.emod_eq_of_lt h0 (by omega), if_pos h]

/-- On every counter value whose 32-bit truncation is not `INT_MIN`, the
allocator computes the absolute value exactly and the whole pipeline stays in
the nonnegative 32-bit range, giving the closed form
`(|int32(c)| % cycleLen) * 1024 + 1023`. -/
theorem nextCommunicationTag_eq (c : Nat) (hc : c % 2 ^ 32 ≠ 2 ^ 31) :
    nextCommunicationTag c =
      (((toInt32 c).natAbs % cycleLen * 1024 + 1023 : Nat) : Int) := by
  obtain ⟨hb1, hb2⟩ := toInt32_bounds c
  have hne := toInt32_ne_intMin c hc
  have hm : (toInt32 c).natAbs % cycleLen < 65535 := by
    have h := Nat.mod_lt ((toInt32 c).natAbs) (show 0 < cycleLen by decide)
    have e := cycleLen_eq
    omega
  have h1 : (if toInt32 c < 0 then wrap32 (-toInt32 c) else toInt32 c) =
      (((toInt32 c).natAbs : Nat) : Int) := by
    by_cases hneg : toInt32 c < 0
    · rw [if_pos hneg, wrap32_of_nonneg_lt (by omega) (by omega),
          Int.ofNat_natAbs_of_nonpos (by omega)]
    · rw [if_neg hneg, Int.natAbs_of_nonneg (by omega)]
  have h2 : (((toInt32 c).natAbs : Nat) : Int).tmod ((cycleLen : Nat) : Int) =
      (((toInt32 c).natAbs % cycleLen : Nat) : Int) := by
    rw [Int.tmod_eq_emod (by omega) (by omega)]
    exact (Int.ofNat_emod _ _).symm
  have h3 : shl32 (((toInt32 c).natAbs % cycleLen : Nat) : Int) 10 =
      (((toInt32 c).natAbs % cycleLen * 1024 : Nat) : Int) := by
    unfold shl32
    rw [(by push_cast; ring :
          (((toInt32 c).natAbs % cycleLen : Nat) : Int) * 2 ^ 10 =
            (((toInt32 c).natAbs % cycleLen * 1024 : Nat) : Int))]
    exact wrap32_of_nonneg_lt (by omega) (by omega)
  have h1023 : ((1023 : Int) % 2 ^ 32).toNat = 1023 := by decide
  simp only [nextCommunicationTag]
  rw [h1, h2, h3]
  unfold lor32 bits32
  rw [Int.emod_eq_of_lt (by omega) (by omega), h1023, Int.toNat_ofNat,
      lor_1023_eq]
  exact wrap32_of_nonneg_lt (by omega) (by omega)

/-- At a counter value whose 32-bit truncation is `INT_MIN` the negation
wraps, the C++ remainder is negative, and the allocator returns the negative
tag `-33553409`. -/
theorem nextCommunicationTag_intMin (c : Nat) (hc : c % 2 ^ 32 = 2 ^ 31) :
    nextCommunicationTag c = -33553409 := by
  simp only [nextCommunicationTag, toInt32]
  rw [hc]
  decide

/-- Single-message size cap of the chunked transfers: `1 << 30` bytes, from
`Min<ui64>(dataSize, 1 << 30)` in the single-block-size overloads of
`TMpiManager::WriteAsync` and `TMpiManager::ReadAsync`. -/
def cap : Nat :=
  1 <<< 30

/-- Transfers issued by the loop shared by the chunked overloads of
`TMpiManager::WriteAsync` and `TMpiManager::ReadAsync`:
`for (offset = 0; offset < dataSize; offset += blockSize)` computes
`const auto size = static_cast<const int>(Min<ui64>(blockSize, dataSize -
offset))` and posts one `MPI_Isend`/`MPI_Irecv` with that truncated `int`
count — so each block is `(offset, toInt32 (min blockSize (dataSize -
offset)))`.  A chunk whose untruncated size lies in `[2^31, 2^32)` truncates
to a negative count, which the MPI call rejects and `MPI_SAFE_CALL` aborts
the whole job (modelled as `none`); a chunk size that truncates to a
nonnegative count (0 is possible, at untruncated size `2^32`) is posted as
is.  The source loop never terminates when `blockSize = 0` (the offset is
never advanced), so the guard `0 < blockSize` below is needed to make the
Lean function total; it agrees with the source whenever `blockSize > 0`. -/
def transferBlocks (blockSize dataSize offset : Nat) :
    Option (List (Nat × Int)) :=
  if offset < dataSize ∧ 0 < blockSize then
    if toInt32 (min blockSize (dataSize - offset)) < 0 then none
    else
      (transferBlocks blockSize dataSize (offset + blockSize)).map
        (fun rest => (offset, toInt32 (min blockSize (dataSize - offset))) :: rest)
  else some []
termination_by dataSize - offset
decreasing_by omega

theorem transferBlocks_eq (blockSize dataSize offset : Nat) :
    transferBlocks blockSize dataSize offset =
      if offset < dataSize ∧ 0 < blockSize then
        if toInt32 (min blockSize (dataSize - offset)) < 0 then none
        else
          (transferBlocks blockSize dataSize (offset + blockSize)).map
            (fun rest =>
              (offset, toInt32 (min blockSize (dataSize - offset))) :: rest)
      else some [] := by
  rw [transferBlocks]

theorem transferBlocks_eq_nil {blockSize dataSize offset : Nat}
    (h : ¬ offset < dataSize) :
    transferBlocks blockSize dataSize offset = some [] := by
  rw [transferBlocks_eq, if_neg (fun hc => h hc.1)]

/-- With block size `2^31` and a payload of `2^31` bytes the very first chunk
size truncates to the negative count `-2^31`, so the chunked loop aborts. -/
theorem transferBlocks_two31_none :
    transferBlocks (2 ^ 31) (2 ^ 31) 0 = none := by
  rw [transferBlocks_eq, if_pos ⟨by norm_num, by norm_num⟩,
      if_pos (show toInt32 (min (2 ^ 31) (2 ^ 31 - 0)) < 0 by decide)]

/-- Untruncated block layout of the chunked loop — block `i` is
`(offset + i * bs, min bs (s - (offset + i * bs)))`.  This is a proof device,
not a source embedding: `transferBlocks_eq_chunkLayout` shows the faithful
`transferBlocks` produces exactly these blocks (with the sizes cast to `Int`)
whenever the block size is below `2^31`, where every `static_cast<int>` is
lossless. -/
def chunkLayout (blockSize dataSize offset : Nat) : List (Nat × Nat) :=
  if offset < dataSize ∧ 0 < blockSize then
    (offset, min blockSize (dataSize - offset)) ::
      chunkLayout blockSize dataSize (offset + blockSize)
  else []
termination_by dataSize - offset
decreasing_by omega

theorem chunkLayout_eq (blockSize dataSize offset : Nat) :
    chunkLayout blockSize dataSize offset =
      if offset < dataSize ∧ 0 < blockSize then
        (offset, min blockSize (dataSize - offset)) ::
          chunkLayout blockSize dataSize (offset + blockSize)
      else [] := by
  rw [chunkLayout]

theorem chunkLayout_eq_nil {blockSize dataSize offset : Nat}
    (h : ¬ offset < dataSize) : chunkLayout blockSize dataSize offset = [] := by
  rw [chunkLayout_eq, if_neg (fun hc => h hc.1)]

/-- Closed form of the untruncated chunk layout: block `i` starts at
`offset + i * bs` and has size `min bs (s - (offset + i * bs))`, and there
are `⌈(s - offset) / bs⌉` blocks. -/
theorem chunkLayout_formula (bs s : Nat) (hbs : 0 < bs) :
    ∀ offset, chunkLayout bs s offset =
      (List.range ((s - offset + bs - 1) / bs)).map
        (fun i => (offset + i * bs, min bs (s - (offset + i * bs)))) := by
  have H : ∀ n offset, s - offset ≤ n → chunkLayout bs s offset =
      (List.range ((s - offset + bs - 1) / bs)).map
        (fun i => (offset + i * bs, min bs (s - (offset + i * bs)))) := by
    intro n
    induction n with
    | zero =>
      intro offset h0
      rw [chunkLayout_eq_nil (by omega)]
      have hc : (s - offset + bs - 1) / bs = 0 := by
        rw [(by omega : s - offset + bs - 1 = bs - 1)]
        exact Nat.div_eq_of_lt (by omega)
      rw [hc]
      rfl
    | succ n ih =>
      intro offset hn
      by_cases hlt : offset < s
      · rw [chunkLayout_eq, if_pos ⟨hlt, hbs⟩, ih (offset + bs) (by omega)]
        have key : ∀ a, (a + bs) / bs = a / bs + 1 := fun a =>
          Nat.add_div_right a hbs
        have hk : (s - offset + bs - 1) / bs =
            (s - (offset + bs) + bs - 1) / bs + 1 := by
          by_cases hab : bs < s - offset
          · rw [(by omega : s - offset + bs - 1 = s - offset - 1 - bs + bs + bs),
                (by omega : s - (offset + bs) + bs - 1 = s - offset - 1 - bs + bs)]
            simp only [key]
          · rw [(by omega : s - offset + bs - 1 = s - offset - 1 + bs),
                (by omega : s - (offset + bs) + bs - 1 = bs - 1),
                Nat.add_div_right _ hbs, Nat.div_eq_of_lt (by omega),
                Nat.div_eq_of_lt (by omega)]
        rw [hk, List.range_succ_eq_map, List.map_cons, List.map_map]
        refine congrArg₂ _ (by simp) ?_
        refine List.map_congr_left fun i hi => ?_
        have e : offset + Nat.succ i * bs = offset + bs + i * bs := by
          rw [Nat.succ_mul]
          ring
        simp only [Function.comp, e]
      · rw [chunkLayout_eq_nil hlt]
        have hc : (s - offset + bs - 1) / bs = 0 := by
          rw [(by omega : s - offset + bs - 1 = bs - 1)]
          exact Nat.div_eq_of_lt (by omega)
        rw [hc]
        rfl
  exact fun offset => H (s - offset) offset le_rfl

theorem chunkLayout_length (bs s offset : Nat) (hbs : 0 < bs) :
    (chunkLayout bs s offset).length = (s - offset + bs - 1) / bs := by
  rw [chunkLayout_formula bs s hbs offset, List.length_map, List.length_range]

/-- Bridge: for block sizes below `2^31` every chunk size is below `2^31`,
so each `static_cast<int>` is lossless and nonnegative, and the faithful loop
returns exactly the untruncated layout. -/
theorem transferBlocks_eq_chunkLayout (bs s : Nat) (hbs : 0 < bs)
    (h31 : bs < 2 ^ 31) :
    ∀ offset, transferBlocks bs s offset =
      some ((chunkLayout bs s offset).map fun p => (p.1, (p.2 : Int))) := by
  have H : ∀ n offset, s - offset ≤ n → transferBlocks bs s offset =
      some ((chunkLayout bs s offset).map fun p => (p.1, (p.2 : Int))) := by
    intro n
    induction n with
    | zero =>
      intro offset h0
      rw [transferBlocks_eq_nil (by omega), chunkLayout_eq_nil (by omega)]
      rfl
    | succ n ih =>
      intro offset hn
      by_cases hlt : offset < s
      · rw [transferBlocks_eq, if_pos ⟨hlt, hbs⟩,
            toInt32_of_lt (show min bs (s - offset) < 2 ^ 31 by omega),
            if_neg (by omega), chunkLayout_eq bs s offset,
            if_pos ⟨hlt, hbs⟩, List.map_cons, ih (offset + bs) (by omega)]
        rfl
      · rw [transferBlocks_eq_nil hlt, chunkLayout_eq_nil hlt]
        rfl
  exact fun offset => H (s - offset) offset le_rfl

/-- One `MPI_Isend` issued by the chunked `TMpiManager::WriteAsync`: it sends
`size` bytes (the truncated `int` count) starting at `data + offset` to
`destRank` with tag `tag`, and contributes exactly one `TMpiRequest` pushed
onto the caller's request vector. -/
structure TIsendCall where
  offset : Nat
  size : Int
  destRank : Int
  tag : Int
  deriving DecidableEq, Repr

/-- Chunked `TMpiManager::WriteAsync(data, dataSize, blockSize, destRank,
tag, requests)`: one `MPI_Isend`-backed request per block of the loop, all at
the same destination and tag; `none` when a truncated chunk count is
negative and the job aborts mid-loop. -/
def writeAsyncChunked (dataSize blockSize : Nat) (destRank tag : Int) :
    Option (List TIsendCall) :=
  (transferBlocks blockSize dataSize 0).map
    (List.map fun p => ⟨p.1, p.2, destRank, tag⟩)

/-- Default block size of the single-block-size overloads:
`const ui64 blockSize = (int)Min<ui64>(dataSize, 1 << 30);` — the cast is
modelled faithfully, though it is lossless here because the minimum is at
most `2^30`. -/
def defaultBlockSize (dataSize : Nat) : Nat :=
  (toInt32 (min dataSize cap)).toNat

theorem defaultBlockSize_eq (dataSize : Nat) :
    defaultBlockSize dataSize = min dataSize cap := by
  unfold defaultBlockSize
  rw [toInt32_of_lt (by unfold cap; omega)]
  exact Int.toNat_ofNat _

/-- Single-block-size overload `TMpiManager::WriteAsync(data, dataSize,
destRank, tag, requests)`. -/
def writeAsyncChunkedDefault (dataSize : Nat) (destRank tag : Int) :
    Option (List TIsendCall) :=
  writeAsyncChunked dataSize (defaultBlockSize dataSize) destRank tag

/-- Chunks of a concrete payload `l` (a byte list) cut by the chunked
`WriteAsync` loop: block `(offset, size)` carries the `size` bytes of `l`
starting at `offset`; `none` when the loop aborts on a negative truncated
count. -/
def sendChunks (l : List Nat) (blockSize : Nat) : Option (List (List Nat)) :=
  (transferBlocks blockSize l.length 0).map
    (List.map fun p => (l.drop p.1).take p.2.toNat)

/-- Effect on the destination buffer of one posted `MPI_Irecv(data + offset,
size, ...)` once its message arrives: the bytes `[offset, offset + size)` are
replaced by the incoming message, clipped to the posted size. -/
def writeAt (buf : List α) (offset : Nat) (blk : List α) : List α :=
  buf.take offset ++ blk ++ buf.drop (offset + blk.length)

/-- Destination buffer after the chunked `TMpiManager::ReadAsync` completes:
the i-th posted receive (at layout entry `(offset, size)`) consumes the i-th
incoming message — the transport delivers messages of one (sender, receiver,
tag) triple in issue order — and writes it at its offset, clipped to the
posted count. -/
def recvAssemble : List α → List (Nat × Int) → List (List α) → List α
  | buf, [], _ => buf
  | buf, _, [] => buf
  | buf, (off, sz) :: rest, msg :: msgs =>
      recvAssemble (writeAt buf off (msg.take sz.toNat)) rest msgs

/-- End-to-end chunked exchange: the sender's chunked `WriteAsync` cuts the
payload `l` into messages, the receiver's matching chunked `ReadAsync` (same
total size, same block size) posts the same block layout into `buf` and
assembles the delivered messages positionally; `none` when either side's
loop aborts on a truncated count. -/
def chunkedRoundTrip (l buf : List Nat) (blockSize : Nat) :
    Option (List Nat) :=
  (transferBlocks blockSize l.length 0).bind fun layout =>
    (sendChunks l blockSize).map fun msgs => recvAssemble buf layout msgs

theorem take_add (l : List α) (m n : Nat) :
    l.take (m + n) = l.take m ++ (l.drop m).take n := by
  rw [List.take_drop]
  conv_lhs => rw [← List.take_append_drop m (l.take (m + n))]
  rw [List.take_take, Nat.min_eq_left (Nat.le_add_right m n)]

/-- Invariant proof for the chunked round trip: if the destination buffer
already agrees with the payload `l` below `offset`, then assembling the
remaining chunks of `l` into it reproduces `l` exactly. -/
theorem recvAssemble_chunkLayout (l : List α) (bs : Nat) (hbs : 0 < bs) :
    ∀ offset (buf : List α), buf.length = l.length →
      buf.take offset = l.take offset →
      recvAssemble buf ((chunkLayout bs l.length offset).map
          fun p => (p.1, (p.2 : Int)))
        ((chunkLayout bs l.length offset).map
          fun p => (l.drop p.1).take p.2) = l := by
  have H : ∀ n offset (buf : List α), l.length - offset ≤ n →
      buf.length = l.length → buf.take offset = l.take offset →
      recvAssemble buf ((chunkLayout bs l.length offset).map
          fun p => (p.1, (p.2 : Int)))
        ((chunkLayout bs l.length offset).map
          fun p => (l.drop p.1).take p.2) = l := by
    intro n
    induction n with
    | zero =>
      intro offset buf h0 hlen htake
      rw [chunkLayout_eq_nil (by omega)]
      rw [List.take_of_length_le (by omega), List.take_of_length_le (by omega)]
        at htake
      exact htake
    | succ n ih =>
      intro offset buf hn hlen htake
      by_cases hlt : offset < l.length
      · rw [chunkLayout_eq, if_pos ⟨hlt, hbs⟩]
        simp only [List.map_cons, recvAssemble, Int.toNat_ofNat]
        rw [List.take_take, Nat.min_self]
        refine ih (offset + bs) _ (by omega) ?_ ?_
        · unfold writeAt
          simp only [List.length_append, List.length_take, List.length_drop]
          omega
        · unfold writeAt
          by_cases hab : bs ≤ l.length - offset
          · rw [Nat.min_eq_left hab]
            have hlen1 : (buf.take offset ++ (l.drop offset).take bs).length =
                offset + bs := by
              simp only [List.length_append, List.length_take, List.length_drop]
              omega
            rw [List.take_left' hlen1, take_add l offset bs, htake]
          · rw [Nat.min_eq_right (by omega)]
            rw [List.take_of_length_le
                  (show (List.drop offset l).length ≤ l.length - offset by
                    rw [List.length_drop])]
            have hdrop : buf.drop (offset + (l.drop offset).length) = [] := by
              refine List.drop_eq_nil_of_le ?_
              simp only [List.length_drop]
              omega
            rw [hdrop, List.append_nil, htake, List.take_append_drop]
      · rw [chunkLayout_eq_nil hlt]
        rw [List.take_of_length_le (by omega), List.take_of_length_le (by omega)]
          at htake
        exact htake
  exact fun offset buf => H (l.length - offset) offset buf le_rfl

/-- For block sizes below `2^31` the chunked send succeeds and cuts the
payload into exactly the untruncated chunks. -/
theorem sendChunks_eq_chunkLayout (l : List Nat) (bs : Nat) (hbs : 0 < bs)
    (h31 : bs < 2 ^ 31) :
    sendChunks l bs =
      some ((chunkLayout bs l.length 0).map
        fun p => (l.drop p.1).take p.2) := by
  unfold sendChunks
  rw [transferBlocks_eq_chunkLayout bs l.length hbs h31 0]
  refine congrArg some ?_
  rw [List.map_map]
  refine List.map_congr_left fun p hp => ?_
  simp [Function.comp]

/-- For block sizes below `2^31` the whole chunked exchange succeeds and
reproduces the payload. -/
theorem chunkedRoundTrip_eq (l buf : List Nat) (bs : Nat) (hbs : 0 < bs)
    (h31 : bs < 2 ^ 31) (hlen : buf.length = l.length) :
    chunkedRoundTrip l buf bs = some l := by
  unfold chunkedRoundTrip
  rw [transferBlocks_eq_chunkLayout bs l.length hbs h31 0,
      sendChunks_eq_chunkLayout l bs hbs h31]
  exact congrArg some
    (recvAssemble_chunkLayout l bs hbs 0 buf hlen (by simp))

/-- Fixed-layout ("plain old data") type: a type whose values are in
bijection with their raw `sizeof(T)`-byte memory image.  `toBytes` is the
byte image read through `reinterpret_cast<const char*>(&value)` and
`fromBytes` is what the destination object holds after those bytes are
copied into its memory; for a POD type the round trip is the identity. -/
structure PodType (α : Type) where
  size : Nat
  toBytes : α → List Nat
  fromBytes : List Nat → α
  length_toBytes : ∀ v, (toBytes v).length = size
  fromBytes_toBytes : ∀ v, fromBytes (toBytes v) = v

/-- `TMpiManager::SendPod` (the POD branch of `TMpiManager::Send`) :
`Write(reinterpret_cast<const char*>(&value), sizeof(value), rank, tag)` —
the raw `sizeof(T)` bytes of the value go on the wire. -/
def sendPod (P : PodType α) (v : α) : List Nat :=
  P.toBytes v

/-- POD branch of `TMpiManager::Receive<T>` : `ReceivePodAsync` posts an
`MPI_Irecv` of exactly `sizeof(T)` bytes into the result object and
`WaitComplete` blocks on it; the delivered message must carry exactly the
posted `sizeof(T)` bytes (a longer message is a transport error, modelled as
`none`), and the result's bits are exactly the received bytes. -/
def receivePod (P : PodType α) (wire : List Nat) : Option α :=
  if wire.length = P.size then some (P.fromBytes wire) else none

/-- Counterexample to claim C1 as stated: the payload of `2^31` zero bytes
is inside the claim's domain (`0 < 2^31 ≤ 4 * cap`) and the block size
`2^31` divides it evenly, but the chunked exchange does not reproduce the
payload — the very first chunk size is truncated by `static_cast<int>` to
the negative count `-2^31`, the MPI call fails and `MPI_SAFE_CALL` aborts
the job (`none`), so the round-trip law does not hold for every block
size. -/
theorem c1_chunked_round_trip_counterexample :
    0 < (List.replicate (2 ^ 31) (0 : Nat)).length ∧
    (List.replicate (2 ^ 31) (0 : Nat)).length ≤ 4 * cap ∧
    0 < 2 ^ 31 ∧
    chunkedRoundTrip (List.replicate (2 ^ 31) (0 : Nat))
      (List.replicate (2 ^ 31) (0 : Nat)) (2 ^ 31) = none ∧
    chunkedRoundTrip (List.replicate (2 ^ 31) (0 : Nat))
      (List.replicate (2 ^ 31) (0 : Nat)) (2 ^ 31) ≠
      some (List.replicate (2 ^ 31) (0 : Nat)) := by
  have hl : (List.replicate (2 ^ 31) (0 : Nat)).length = 2 ^ 31 :=
    List.length_replicate _ _
  have hrt : chunkedRoundTrip (List.replicate (2 ^ 31) (0 : Nat))
      (List.replicate (2 ^ 31) (0 : Nat)) (2 ^ 31) = none := by
    unfold chunkedRoundTrip
    rw [hl, transferBlocks_two31_none]
    rfl
  refine ⟨by rw [hl]; decide, by rw [hl]; decide, by decide, hrt, ?_⟩
  rw [hrt]
  exact fun h => Option.noConfusion h

/-- Claim C1 (amended): for every payload of size `s` with `0 < s ≤ 4 * cap`,
splitting it with the chunked async send into blocks of
`block_size = min(s, cap)` and reassembling the blocks positionally in issue
order via the matching chunked async receive reproduces the original byte
sequence exactly, and likewise for any block size below `2^31` (where every
per-chunk `static_cast<int>` is lossless), whether or not it divides `s`
evenly; for block sizes of `2^31` and above the truncated counts make the
transfer abort or drop bytes instead. -/
theorem c1_chunked_round_trip (l buf : List Nat) (hlen : buf.length = l.length)
    (h1 : 0 < l.length) (h2 : l.length ≤ 4 * cap) :
    chunkedRoundTrip l buf (min l.length cap) = some l ∧
    ∀ bs, 0 < bs → bs < 2 ^ 31 → chunkedRoundTrip l buf bs = some l := by
  refine ⟨?_, fun bs hbs h31 => chunkedRoundTrip_eq l buf bs hbs h31 hlen⟩
  refine chunkedRoundTrip_eq l buf (min l.length cap) ?_ ?_ hlen
  · unfold cap
    omega
  · unfold cap
    omega

/-- Witness for the amended C1 at the payload `[7, 3, 5]` (size 3, block
size `min 3 cap = 3`) assembled into the zeroed buffer `[0, 0, 0]`. -/
theorem c1_chunked_round_trip_witness :
    chunkedRoundTrip [7, 3, 5] [0, 0, 0]
      (min ([7, 3, 5] : List Nat).length cap) = some [7, 3, 5] ∧
    ∀ bs, 0 < bs → bs < 2 ^ 31 →
      chunkedRoundTrip [7, 3, 5] [0, 0, 0] bs = some [7, 3, 5] :=
  c1_chunked_round_trip [7, 3, 5] [0, 0, 0] rfl (by decide) (by decide)

/-- Counterexample to claim C4 as stated: at `dataSize = blockSize = 2^31`
the claim asserts one async send of size `min(2^31, 2^31) = 2^31` and one
pushed request, but the source truncates the chunk size with
`static_cast<int>` to the negative count `-2^31` and `MPI_SAFE_CALL` aborts
the job before any request is pushed. -/
theorem c4_write_async_chunked_counterexample :
    writeAsyncChunked (2 ^ 31) (2 ^ 31) 0 0 = none ∧
    writeAsyncChunked (2 ^ 31) (2 ^ 31) 0 0 ≠
      some [⟨0, ((min (2 ^ 31) (2 ^ 31) : Nat) : Int), 0, 0⟩] := by
  have h : writeAsyncChunked (2 ^ 31) (2 ^ 31) 0 0 = none := by
    unfold writeAsyncChunked
    rw [transferBlocks_two31_none]
    rfl
  exact ⟨h, by rw [h]; simp⟩

/-- Claim C4 (amended): for every block size below `2^31` (so that every
per-chunk `static_cast<int>` is lossless) the chunked async send splits a
payload of size `s` into consecutive blocks at offsets `0, bs, 2*bs, ...` of
size `min(bs, s - offset)` each (so only the last block may be shorter),
issues one async send per block at the same destination and tag, and pushes
exactly one request per block — `⌈s / bs⌉` requests in total; the
single-block-size overload uses the default block size `min(s, cap)` with
`cap = 2^30` (its own `int` cast is always lossless).  For block sizes of
`2^31` and above the truncated count is negative (job aborts) or zero. -/
theorem c4_write_async_chunked (dataSize blockSize : Nat) (destRank tag : Int)
    (hbs : 0 < blockSize) (h31 : blockSize < 2 ^ 31) :
    writeAsyncChunked dataSize blockSize destRank tag =
      some ((List.range ((dataSize + blockSize - 1) / blockSize)).map
        (fun i => ⟨i * blockSize,
                   ((min blockSize (dataSize - i * blockSize) : Nat) : Int),
                   destRank, tag⟩)) ∧
    Option.map List.length (writeAsyncChunked dataSize blockSize destRank tag) =
      some ((dataSize + blockSize - 1) / blockSize) ∧
    defaultBlockSize dataSize = min dataSize cap ∧
    writeAsyncChunkedDefault dataSize destRank tag =
      writeAsyncChunked dataSize (min dataSize cap) destRank tag := by
  have hmain : writeAsyncChunked dataSize blockSize destRank tag =
      some ((List.range ((dataSize + blockSize - 1) / blockSize)).map
        (fun i => ⟨i * blockSize,
                   ((min blockSize (dataSize - i * blockSize) : Nat) : Int),
                   destRank, tag⟩)) := by
    unfold writeAsyncChunked
    rw [transferBlocks_eq_chunkLayout blockSize dataSize hbs h31 0]
    refine congrArg some ?_
    rw [chunkLayout_formula blockSize dataSize hbs 0, List.map_map,
        List.map_map]
    simp only [Nat.sub_zero]
    exact List.map_congr_left fun i hi => by simp [Function.comp]
  refine ⟨hmain, ?_, defaultBlockSize_eq dataSize, ?_⟩
  · rw [hmain]
    simp [List.length_map, List.length_range]
  · unfold writeAsyncChunkedDefault
    rw [defaultBlockSize_eq]

/-- Witness for the amended C4 at a 5-byte payload with block size 2
(3 blocks: sizes 2, 2, 1). -/
theorem c4_write_async_chunked_witness :
    writeAsyncChunked 5 2 0 0 =
      some ((List.range ((5 + 2 - 1) / 2)).map
        (fun i => ⟨i * 2, ((min 2 (5 - i * 2) : Nat) : Int), 0, 0⟩)) ∧
    Option.map List.length (writeAsyncChunked 5 2 0 0) = some ((5 + 2 - 1) / 2) ∧
    defaultBlockSize 5 = min 5 cap ∧
    writeAsyncChunkedDefault 5 0 0 = writeAsyncChunked 5 (min 5 cap) 0 0 :=
  c4_write_async_chunked 5 2 0 0 (by decide) (by decide)

/-- Claim C5: for every fixed-layout (POD) type `T` and value `v`, sending
`v` with the typed send (which transmits the raw `sizeof(T)` bytes of `v`)
and receiving it with the typed receive (which posts a receive of exactly
`sizeof(T)` bytes and waits on it) reproduces `v` bit for bit. -/
theorem c5_pod_round_trip (α : Type) (P : PodType α) (v : α) :
    receivePod P (sendPod P v) = some v := by
  unfold receivePod sendPod
  rw [if_pos (P.length_toBytes v), P.fromBytes_toBytes]

/-- One-byte POD type used to witness C5: a `Bool` transmitted as the single
byte 1 or 0. -/
def boolPod : PodType Bool where
  size := 1
  toBytes v := [if v then 1 else 0]
  fromBytes w := w.headD 0 != 0
  length_toBytes := fun v => rfl
  fromBytes_toBytes := by decide

/-- Witness for C5 at the concrete POD type `boolPod` and value `true`. -/
theorem c5_pod_round_trip_witness :
    receivePod boolPod (sendPod boolPod true) = some true :=
  c5_pod_round_trip Bool boolPod true

/-- Claim C6: once a `TMpiRequest` is complete its state is monotone — a
`poll` (`IsComplete`) returns `true` with the state unchanged and performs no
further `MPI_Test` transport call, and `wait` (`WaitComplete`) is a no-op
(state unchanged, zero `MPI_Wait` calls); in particular the request never
returns to the pending state. -/
theorem c6_complete_monotone (r : TMpiRequest) (b : Bool) (st : Nat)
    (h : r.flag = 1) :
    isComplete r b st = some (r, true, 0) ∧ waitComplete r st = some (r, 0) := by
  simp [isComplete, waitComplete, h]

/-- Witness for C6 at the concrete complete request `⟨1, 0, 0⟩`. -/
theorem c6_complete_monotone_witness :
    isComplete ⟨1, 0, 0⟩ true 0 = some (⟨1, 0, 0⟩, true, 0) ∧
    waitComplete ⟨1, 0, 0⟩ 0 = some (⟨1, 0, 0⟩, 0) :=
  c6_complete_monotone ⟨1, 0, 0⟩ true 0 rfl

/-- Claim C7: every query operation (`IsComplete`, `WaitComplete`,
`ReceivedBytes`, `Abort`) on an empty request (`Flag = -1`, never bound to a
transfer) fails fatally; destroying a pending request fails fatally, while
destroying an empty or complete request succeeds. -/
theorem c7_empty_queries_fatal (e p c : TMpiRequest) (b : Bool) (st : Nat)
    (he : e.flag = -1) (hp : p.flag = 0) (hc : c.flag = 1) :
    isComplete e b st = none ∧ waitComplete e st = none ∧
    receivedBytes e = none ∧ abortRequest e = none ∧
    destructRequest e = some () ∧
    destructRequest p = none ∧ destructRequest c = some () := by
  simp [isComplete, waitComplete, receivedBytes, abortRequest, destructRequest,
        he, hp, hc]

/-- Witness for C7 at the concrete empty, pending and complete requests. -/
theorem c7_empty_queries_fatal_witness :
    isComplete ⟨-1, 0, 0⟩ true 0 = none ∧ waitComplete ⟨-1, 0, 0⟩ 0 = none ∧
    receivedBytes ⟨-1, 0, 0⟩ = none ∧ abortRequest ⟨-1, 0, 0⟩ = none ∧
    destructRequest ⟨-1, 0, 0⟩ = some () ∧
    destructRequest ⟨0, 0, 0⟩ = none ∧ destructRequest ⟨1, 0, 0⟩ = some () :=
  c7_empty_queries_fatal ⟨-1, 0, 0⟩ ⟨0, 0, 0⟩ ⟨1, 0, 0⟩ true 0 rfl rfl rfl

/-- Counterexample to claim C8 as stated: the claim says calling cancel
(`Abort`) on an already-complete request is illegal (a fatal usage error),
but on the complete request `⟨1, 0, 0⟩` the `if (!Flag)` branch of `Abort` is
skipped and the call returns normally, leaving the request complete and
unchanged. -/
theorem c8_cancel_counterexample :
    abortRequest ⟨1, 0, 0⟩ = some ⟨1, 0, 0⟩ ∧ abortRequest ⟨1, 0, 0⟩ ≠ none := by
  decide

/-- Claim C8 (amended): cancel (`Abort`) on a pending request forces its
state to empty; cancel on an empty request is a fatal usage error; cancel on
an already-complete request is a silent no-op that returns normally and
leaves the request complete. -/
theorem c8_cancel_amended (p e c : TMpiRequest)
    (hp : p.flag = 0) (he : e.flag = -1) (hc : c.flag = 1) :
    abortRequest p = some (clearRequest p) ∧
    abortRequest e = none ∧
    abortRequest c = some c := by
  simp [abortRequest, clearRequest, hp, he, hc]

/-- Witness for the amended C8 at concrete pending, empty and complete
requests. -/
theorem c8_cancel_amended_witness :
    abortRequest ⟨0, 5, 7⟩ = some (clearRequest ⟨0, 5, 7⟩) ∧
    abortRequest ⟨-1, 0, 0⟩ = none ∧
    abortRequest ⟨1, 0, 0⟩ = some ⟨1, 0, 0⟩ :=
  c8_cancel_amended ⟨0, 5, 7⟩ ⟨-1, 0, 0⟩ ⟨1, 0, 0⟩ rfl rfl rfl

/-- Claim C10: moving a request from a different object transfers the flag,
token and status to the destination and leaves the source empty
(`Clear()`ed), so the moved-from request reports not-created and its
destruction succeeds (the underlying token is owned by one live request
only); a self move leaves the request unchanged. -/
theorem c10_move_semantics (d s r : TMpiRequest) :
    (moveAssign d s false).1 = ⟨s.flag, s.token, s.status⟩ ∧
    (moveAssign d s false).2.flag = -1 ∧
    isCreated (moveAssign d s false).2 = false ∧
    destructRequest (moveAssign d s false).2 = some () ∧
    moveAssign r r true = (r, r) := by
  simp [moveAssign, clearRequest, isCreated, destructRequest]

/-- Counterexample to claim C3 as stated, on both of its parts.  Uniqueness:
the counter values `2^32 - 5` and `2^32 + 5` differ by 10, far less than the
cycle length `2^16 - 1`, yet they produce the same tag, because
`static_cast<int>` truncates the 64-bit counter to 32 bits and the
subsequent `tag < 0 ? -tag : tag` folds the negative image `-5` of
`2^32 - 5` onto `5`.  Positivity: at counter value `2^31` the cast yields
`INT_MIN`, whose 32-bit negation wraps back to `INT_MIN`, and the allocator
returns the negative tag `-33553409`. -/
theorem c3_tag_unique_counterexample :
    (2 ^ 32 - 5 : Nat) ≠ 2 ^ 32 + 5 ∧
    (2 ^ 32 + 5) - (2 ^ 32 - 5 : Nat) < cycleLen ∧
    nextCommunicationTag (2 ^ 32 - 5) = nextCommunicationTag (2 ^ 32 + 5) ∧
    nextCommunicationTag (2 ^ 31) < 0 := by
  decide

/-- Claim C3 (amended): on every counter value whose 32-bit truncation is
not `INT_MIN` (`c % 2^32 ≠ 2^31` — at `INT_MIN` the 32-bit negation
overflows and the allocator returns the negative tag `-33553409`), the
allocated tag is strictly positive and carries the reserved low-order bit
pattern (its low ten bits are all ones, i.e. the tag is 1023 modulo 1024);
and as long as the counter values stay below `2^31` (where the
`static_cast<int>` of the 64-bit counter is lossless), any two calls whose
counter values differ by less than the cycle length `2^16 - 1` return
distinct tags. -/
theorem c3_tag_allocator_amended (c c1 c2 : Nat) (hc : c % 2 ^ 32 ≠ 2 ^ 31)
    (h1 : c1 < 2 ^ 31) (h2 : c2 < 2 ^ 31) (hne : c1 ≠ c2)
    (hd1 : c1 - c2 < cycleLen) (hd2 : c2 - c1 < cycleLen) :
    0 < nextCommunicationTag c ∧
    nextCommunicationTag c % 1024 = 1023 ∧
    nextCommunicationTag c1 ≠ nextCommunicationTag c2 := by
  rw [cycleLen_eq] at hd1 hd2
  have e1 : c1 % 2 ^ 32 ≠ 2 ^ 31 := by
    rw [Nat.mod_eq_of_lt (by omega)]
    omega
  have e2 : c2 % 2 ^ 32 ≠ 2 ^ 31 := by
    rw [Nat.mod_eq_of_lt (by omega)]
    omega
  rw [nextCommunicationTag_eq c hc, nextCommunicationTag_eq c1 e1,
      nextCommunicationTag_eq c2 e2, cycleLen_eq,
      toInt32_natAbs_of_lt h1, toInt32_natAbs_of_lt h2]
  refine ⟨?_, ?_, ?_⟩ <;> omega

/-- Witness for the amended C3 at counter values 1 and 2. -/
theorem c3_tag_allocator_amended_witness :
    0 < nextCommunicationTag 1 ∧
    nextCommunicationTag 1 % 1024 = 1023 ∧
    nextCommunicationTag 1 ≠ nextCommunicationTag 2 :=
  c3_tag_allocator_amended 1 1 2 (by decide) (by decide) (by decide)
    (by decide) (by decide) (by decide)

/-- Counterexample to claim C9 as stated: the device with local id 1022
(which satisfies the `Y_ASSERT(deviceId.DeviceId >= 0)` precondition) has
inbox tag `1022 + 1 = 1023`, and the allocator returns exactly that tag on
the call whose counter value is 65535 (base value 0, transformed to
`(0 << 10) | 1023 = 1023`), so the two tag namespaces are not disjoint. -/
theorem c9_task_tag_counterexample :
    (0 : Int) ≤ (TDeviceId.mk 0 1022).deviceId ∧
    getTaskTag (TDeviceId.mk 0 1022) = nextCommunicationTag 65535 := by
  decide

/-- Claim C9 (amended): the task inbox tag is `local_id + 1`, and it is
distinct from every tag the allocator can return whenever `local_id + 1`
does not carry the reserved low-bit pattern (`(local_id + 1) % 1024 ≠ 1023`,
which in particular holds for every `local_id < 1022`), because every
allocator tag is 1023 modulo 1024. -/
theorem c9_task_tag_amended (d : TDeviceId) (c : Nat)
    (h0 : 0 ≤ d.deviceId) (h : (d.deviceId + 1) % 1024 ≠ 1023) :
    getTaskTag d = d.deviceId + 1 ∧
    getTaskTag d ≠ nextCommunicationTag c := by
  refine ⟨rfl, ?_⟩
  by_cases hc : c % 2 ^ 32 = 2 ^ 31
  · rw [nextCommunicationTag_intMin c hc]
    unfold getTaskTag
    omega
  · rw [nextCommunicationTag_eq c hc, cycleLen_eq]
    unfold getTaskTag
    omega

/-- Witness for the amended C9 at the device `⟨0, 0⟩` (inbox tag 1) and
counter value 1 (allocator tag 2047). -/
theorem c9_task_tag_amended_witness :
    getTaskTag ⟨0, 0⟩ = (0 : Int) + 1 ∧
    getTaskTag ⟨0, 0⟩ ≠ nextCommunicationTag 1 :=
  c9_task_tag_amended ⟨0, 0⟩ 1 (by decide) (by decide)

/-- Counterexample to claim C2 as stated: the claim says a payload of exactly
the maximum buffer size (32 MiB) succeeds, but `SendTask` asserts
`size < (int)BufferSize`, so a payload of exactly `BufferSize` bytes fails
fatally. -/
theorem c2_sendtask_counterexample :
    sendTaskChecks true BufferSize = none := by
  decide

/-- Claim C2 (amended): `SendTask` fails fatally when the serialized payload
is empty or when its size is at least the fixed 32 MiB task-buffer size
(`Y_ASSERT(size < (int)BufferSize)` — so a payload of exactly the maximum
fails, as does one byte over); every payload with `0 < size < BufferSize`
passes the checks and is sent. -/
theorem c2_sendtask_amended (s : Nat) (h1 : 0 < s) (h2 : s < BufferSize) :
    sendTaskChecks true s = some (s : Int) ∧
    sendTaskChecks true 0 = none ∧
    sendTaskChecks true BufferSize = none ∧
    sendTaskChecks true (BufferSize + 1) = none := by
  refine ⟨?_, by decide, by decide, by decide⟩
  have hs31 : s < 2 ^ 31 := by
    have : BufferSize < 2 ^ 31 := by decide
    omega
  have hlt : (s : Int) < (BufferSize : Int) := by exact_mod_cast h2
  have hne : (s : Int) ≠ 0 := by exact_mod_cast h1.ne'
  simp [sendTaskChecks, toInt32_of_lt hs31, hlt, hne]

/-- Witness for the amended C2 at a one-byte payload. -/
theorem c2_sendtask_amended_witness :
    sendTaskChecks true 1 = some (1 : Int) ∧
    sendTaskChecks true 0 = none ∧
    sendTaskChecks true BufferSize = none ∧
    sendTaskChecks true (BufferSize + 1) = none :=
  c2_sendtask_amended 1 (by decide) (by decide)

end CatboostMpi
